import Mathlib

/-!
Verification development for the federated-learning orchestration core of
the `federated-ai` repository: the weighted metric aggregator, the server
configuration validation, the round ledger (Django `TrainingRound`
persistence driven by `DjangoFedAvg`), and the round orchestration loop.

Pure Python functions are embedded as Lean functions; Python `dict`s become
association lists with first-match lookup; Python floats become `ℚ`
(the algorithms are exact arithmetic, so rationals model them faithfully);
code that can raise an exception visible to its caller returns `Except`.
-/

namespace FederatedAI

/-! ## Definitions -/

/-- Dictionary lookup on an association list, mirroring Python `dict[key]` /
`dict.get(key)`: the value of the first pair whose key matches, if any. -/
def lookupKey {α : Type} (d : List (String × α)) (k : String) : Option α :=
  match d with
  | [] => none
  | p :: rest => if p.1 = k then some p.2 else lookupKey rest k

/-- Python `metric_dict.get(key, 0.0)` on a metrics dictionary. -/
def qGetD (d : List (String × ℚ)) (k : String) : ℚ :=
  (lookupKey d k).getD 0

/-- The quantity `total_examples = sum(num_examples for num_examples, _ in
metrics)` of `weighted_average` (fl_server/strategy.py line 264). -/
def totalExamples (metrics : List (Nat × List (String × ℚ))) : Nat :=
  (metrics.map Prod.fst).sum

/-- Insertion into the `all_keys` set: Python's `set.update` keeps one copy
of each key; we keep first-appearance order (only membership matters). -/
def insertKey (acc : List String) (k : String) : List String :=
  if k ∈ acc then acc else acc ++ [k]

/-- The set `all_keys`, the union of every entry's metric keys
(`for _, metric_dict in metrics: all_keys.update(metric_dict.keys())`,
strategy.py lines 270-272). -/
def allKeys (metrics : List (Nat × List (String × ℚ))) : List String :=
  metrics.foldl (fun acc e => e.2.foldl (fun a p => insertKey a p.1) acc) []

/-- The per-key numerator
`weighted_sum = sum(num_examples * metric_dict.get(key, 0.0) for ...)`
(strategy.py lines 276-279). -/
def weightedSum (metrics : List (Nat × List (String × ℚ))) (k : String) : ℚ :=
  (metrics.map (fun e => (e.1 : ℚ) * qGetD e.2 k)).sum

/-- The function `weighted_average` (fl_server/strategy.py lines 250-282).
Empty input returns the empty dict.  Otherwise Python divides
`weighted_sum / total_examples` once per key in `all_keys`; when
`total_examples == 0` the first such division raises `ZeroDivisionError`
(so the call errors exactly when the key union is non-empty), which the
embedding surfaces as `Except.error`. -/
def weighted_average (metrics : List (Nat × List (String × ℚ))) :
    Except String (List (String × ℚ)) :=
  if metrics = [] then .ok []
  else if totalExamples metrics = 0 ∧ allKeys metrics ≠ [] then
    .error "ZeroDivisionError"
  else
    .ok ((allKeys metrics).map
      (fun k => (k, weightedSum metrics k / (totalExamples metrics : ℚ))))

/-- The dataclass `FLServerConfig` (fl_server/config.py lines 10-40): its
fields, with Python ints as `ℤ`, floats as `ℚ` and the optional timeout as
`Option ℚ`. -/
structure FLServerConfig where
  server_address : String
  num_rounds : ℤ
  min_fit_clients : ℤ
  min_evaluate_clients : ℤ
  min_available_clients : ℤ
  fraction_fit : ℚ
  fraction_evaluate : ℚ
  model_name : String
  num_classes : ℤ
  local_epochs : ℤ
  batch_size : ℤ
  learning_rate : ℚ
  round_timeout : Option ℚ
  accept_failures : Bool

/-- Constructing an `FLServerConfig`: dataclass `__init__` followed by
`__post_init__` validation (config.py lines 42-55).  A raised `ValueError`
is `Except.error`; the checks run in source order and touch only the three
min-client fields and the two fraction fields. -/
def mkFLServerConfig (server_address : String) (num_rounds : ℤ)
    (min_fit_clients min_evaluate_clients min_available_clients : ℤ)
    (fraction_fit fraction_evaluate : ℚ) (model_name : String)
    (num_classes local_epochs batch_size : ℤ) (learning_rate : ℚ)
    (round_timeout : Option ℚ) (accept_failures : Bool) :
    Except String FLServerConfig :=
  if min_fit_clients < 1 then
    .error "min_fit_clients must be at least 1"
  else if min_evaluate_clients < 1 then
    .error "min_evaluate_clients must be at least 1"
  else if min_available_clients < max min_fit_clients min_evaluate_clients then
    .error "min_available_clients must be >= max(min_fit_clients, min_evaluate_clients)"
  else if ¬(0 < fraction_fit ∧ fraction_fit ≤ 1) then
    .error "fraction_fit must be in (0, 1]"
  else if ¬(0 < fraction_evaluate ∧ fraction_evaluate ≤ 1) then
    .error "fraction_evaluate must be in (0, 1]"
  else
    .ok ⟨server_address, num_rounds, min_fit_clients, min_evaluate_clients,
      min_available_clients, fraction_fit, fraction_evaluate, model_name,
      num_classes, local_epochs, batch_size, learning_rate, round_timeout,
      accept_failures⟩

/-- JSON values, the shape of the `metrics` JSONField on `TrainingRound`. -/
inductive JsonVal where
  | num (q : ℚ)
  | str (s : String)
  | null
  | arr (elems : List JsonVal)
  | obj (fields : List (String × JsonVal))

/-- The fields of a `TrainingRound` row the strategy reads or writes
(training/models.py lines 145-233; the remaining columns are never touched
by the FL code). -/
structure TrainingRound where
  training_session_id : Nat
  round_number : Nat
  num_clients : Nat
  status : String
  metrics : List (String × JsonVal)

/-- Membership test for the `(training_session_id, round_number)` key used
by `get_or_create` and `objects.get`. -/
def isRoundFor (sid rnum : Nat) (r : TrainingRound) : Bool :=
  r.training_session_id == sid && r.round_number == rnum

/-- The query `TrainingRound.objects.get(training_session_id=...,
round_number=...)`: the first row matching the key, if any. -/
def get_round (db : List TrainingRound) (sid rnum : Nat) : Option TrainingRound :=
  match db with
  | [] => none
  | r :: rest => if isRoundFor sid rnum r then some r else get_round rest sid rnum

/-- Number of rows for one `(session, round_number)` key. -/
def countKey (db : List TrainingRound) (sid rnum : Nat) : Nat :=
  (db.filter (isRoundFor sid rnum)).length

/-- Python dict assignment `d[k] = v`: replaces the key's binding if
present, otherwise appends it. -/
def setKey {α : Type} (d : List (String × α)) (k : String) (v : α) :
    List (String × α) :=
  match d with
  | [] => [(k, v)]
  | p :: rest => if p.1 = k then (k, v) :: rest else p :: setKey rest k v

/-- The dict literal `_save_round_to_db` assigns to `training_round.metrics`
(strategy.py lines 198-202): exactly the `aggregated`, `clients` and
`timestamp` sub-keys. -/
def fitMetricsMap (aggregated : List (String × ℚ)) (client_metrics : List JsonVal)
    (now : String) : List (String × JsonVal) :=
  [("aggregated", .obj (aggregated.map fun p => (p.1, .num p.2))),
   ("clients", .arr client_metrics),
   ("timestamp", .str now)]

/-- The method `DjangoFedAvg._save_round_to_db` (strategy.py lines
166-209): a `get_or_create` on the `(session, round_number)` key — the
created row gets `num_clients` and status `completed` from the defaults,
an existing row has those two columns overwritten — followed by
`training_round.metrics = {...}` (a wholesale assignment of the three-key
dict) and `save()`.  Exceptions are caught and logged, so the operation
always returns the new table. -/
def save_round_to_db (db : List TrainingRound) (sid rnum num_clients : Nat)
    (aggregated : List (String × ℚ)) (client_metrics : List JsonVal)
    (now : String) : List TrainingRound :=
  match db with
  | [] => [⟨sid, rnum, num_clients, "completed",
            fitMetricsMap aggregated client_metrics now⟩]
  | r :: rest =>
    if isRoundFor sid rnum r then
      { r with num_clients := num_clients, status := "completed",
               metrics := fitMetricsMap aggregated client_metrics now } :: rest
    else r :: save_round_to_db rest sid rnum num_clients aggregated client_metrics now

/-- The value assigned to `metrics['evaluation']`
(strategy.py lines 235-238). -/
def evaluationVal (loss : Option ℚ) (metrics : List (String × ℚ)) : JsonVal :=
  .obj [("loss", match loss with | some l => .num l | none => .null),
        ("metrics", .obj (metrics.map fun p => (p.1, .num p.2)))]

/-- The method `DjangoFedAvg._update_round_evaluation` (strategy.py lines
211-247): `objects.get` on the key; on `DoesNotExist` the exception is
caught and only logged, leaving the table untouched and returning
normally; otherwise only the `evaluation` sub-key of the row's metrics
dict is assigned. -/
def update_round_evaluation (db : List TrainingRound) (sid rnum : Nat)
    (loss : Option ℚ) (metrics : List (String × ℚ)) : List TrainingRound :=
  match db with
  | [] => []
  | r :: rest =>
    if isRoundFor sid rnum r then
      { r with metrics := setKey r.metrics "evaluation" (evaluationVal loss metrics) }
        :: rest
    else r :: update_round_evaluation rest sid rnum loss metrics

/-- Modelled from the spec: `attach_evaluation` as §4.2 words it — "fails
with `RoundNotFound` if the round does not exist yet", the failure being
visible to the caller.  This definition follows the spec's words, for
comparison with `update_round_evaluation`, which embeds the source. -/
def attach_evaluation_spec (db : List TrainingRound) (sid rnum : Nat)
    (loss : Option ℚ) (metrics : List (String × ℚ)) :
    Except String (List TrainingRound) :=
  match get_round db sid rnum with
  | none => .error "RoundNotFound"
  | some _ => .ok (update_round_evaluation db sid rnum loss metrics)

/-- A client's successful fit response: updated parameters, the number of
local training examples, and a metrics map. -/
structure FitRes where
  parameters : List ℚ
  num_examples : Nat
  metrics : List (String × ℚ)

/-- A client's successful evaluate response. -/
structure EvalRes where
  loss : ℚ
  num_examples : Nat
  metrics : List (String × ℚ)

/-- Modelled from the spec: element-wise vector sum used by the FedAvg
parameter rule (vectors of equal length in practice; a shorter one is
padded with the other's tail). -/
def addVec : List ℚ → List ℚ → List ℚ
  | [], ys => ys
  | x :: xs, [] => x :: xs
  | x :: xs, y :: ys => (x + y) :: addVec xs ys

/-- Modelled from the spec: the sample-count-weighted element-wise average
of the clients' parameter vectors (standard FedAvg, §4.3). -/
def fedavgParams (results : List (String × FitRes)) : List ℚ :=
  let total : ℚ := (((results.map fun e => e.2.num_examples).sum : Nat) : ℚ)
  (results.foldr
    (fun e acc => addVec (e.2.parameters.map ((e.2.num_examples : ℚ) * ·)) acc)
    []).map (· / total)

/-- Modelled from the spec: Flower's `FedAvg.aggregate_fit`, the base-class
implementation the source's `super().aggregate_fit(...)` call delegates to;
the Flower library is a third-party dependency whose code is not in this
repository.  Per §4.3: an empty `results` list yields no new parameters;
with `accept_failures` false and any failure present, the round likewise
yields no parameters; otherwise the sample-count-weighted average of the
clients' parameters, with the aggregated metrics computed by the configured
`fit_metrics_aggregation_fn` — which server.py wires to `weighted_average`
— applied to the `(num_examples, metrics)` pairs. -/
def fedavg_aggregate_fit (accept_failures : Bool)
    (results : List (String × FitRes)) (failures : Nat) :
    Except String (Option (List ℚ) × List (String × ℚ)) :=
  if results.isEmpty then .ok (none, [])
  else if ¬accept_failures ∧ failures ≠ 0 then .ok (none, [])
  else do
    let m ← weighted_average (results.map fun e => (e.2.num_examples, e.2.metrics))
    .ok (some (fedavgParams results), m)

/-- The per-client metric record `aggregate_fit` collects before
aggregation (strategy.py lines 103-111). -/
def clientMetricEntry (cid : String) (fr : FitRes) : JsonVal :=
  .obj [("client_id", .str cid),
        ("loss", .num (qGetD fr.metrics "loss")),
        ("accuracy", .num (qGetD fr.metrics "accuracy")),
        ("num_examples", .num fr.num_examples)]

/-- The method `DjangoFedAvg.aggregate_fit` (strategy.py lines 78-127):
collects the per-client metrics of every success with a non-empty metrics
map, delegates to the parent FedAvg, and writes the round to the ledger
ONLY when aggregation produced parameters
(`if aggregated_parameters is not None`).  Returns
`(aggregated_parameters, aggregated_metrics, new table)`. -/
def aggregate_fit (accept_failures : Bool) (sid server_round : Nat)
    (results : List (String × FitRes)) (failures : Nat)
    (db : List TrainingRound) (now : String) :
    Except String (Option (List ℚ) × List (String × ℚ) × List TrainingRound) := do
  let client_metrics := results.filterMap
    (fun e => if e.2.metrics.isEmpty then none else some (clientMetricEntry e.1 e.2))
  let (p, m) ← fedavg_aggregate_fit accept_failures results failures
  let db' := match p with
    | some _ => save_round_to_db db sid server_round results.length m client_metrics now
    | none => db
  .ok (p, m, db')

/-- Modelled from the spec: Flower's weighted loss average over evaluate
results (the same weighting rule as §4.1). -/
def weightedLossAvg (results : List (String × EvalRes)) : ℚ :=
  ((results.map fun e => (e.2.num_examples : ℚ) * e.2.loss).sum) /
    (((results.map fun e => e.2.num_examples).sum : Nat) : ℚ)

/-- Modelled from the spec: Flower's `FedAvg.aggregate_evaluate` (same
third-party base class).  Empty results or rejected failures yield no loss;
otherwise the sample-count-weighted loss plus the configured
`evaluate_metrics_aggregation_fn` (`weighted_average`, per server.py). -/
def fedavg_aggregate_evaluate (accept_failures : Bool)
    (results : List (String × EvalRes)) (failures : Nat) :
    Except String (Option ℚ × List (String × ℚ)) :=
  if results.isEmpty then .ok (none, [])
  else if ¬accept_failures ∧ failures ≠ 0 then .ok (none, [])
  else do
    let m ← weighted_average (results.map fun e => (e.2.num_examples, e.2.metrics))
    .ok (some (weightedLossAvg results), m)

/-- The method `DjangoFedAvg.aggregate_evaluate` (strategy.py lines
129-164): delegates to the parent, then updates the round's evaluation
metrics ONLY when the aggregated metrics map is non-empty
(`if aggregated_metrics:`). -/
def aggregate_evaluate (accept_failures : Bool) (sid server_round : Nat)
    (results : List (String × EvalRes)) (failures : Nat)
    (db : List TrainingRound) :
    Except String (Option ℚ × List (String × ℚ) × List TrainingRound) := do
  let (l, m) ← fedavg_aggregate_evaluate accept_failures results failures
  let db' := if m.isEmpty then db
    else update_round_evaluation db sid server_round l m
  .ok (l, m, db')

/-- The `TrainingSession` columns the orchestration reads or writes
(training/models.py lines 9-76). -/
structure TrainingSession where
  name : String
  status : String
  num_rounds : Nat
  current_round : Nat

/-- One round's worth of client responses, as delivered by the transport. -/
structure RoundInput where
  fitResults : List (String × FitRes)
  fitFailures : Nat
  evalResults : List (String × EvalRes)
  evalFailures : Nat
  now : String

/-- The orchestration state: the persisted session row, the strategy's
in-memory `current_round` attribute (strategy.py lines 66 and 95), the
current global parameters held by the Flower server, and the
`TrainingRound` table. -/
structure ServerState where
  session : TrainingSession
  strategyRound : Nat
  params : List ℚ
  db : List TrainingRound

/-- Modelled from the spec: one federated round as the Flower server drives
it (§4.3-§4.4 for the library-side loop): `aggregate_fit` — which sets the
strategy's in-memory `current_round` to the round number (strategy.py line
95) — then `aggregate_evaluate`; the global parameters are replaced only
when fit aggregation produced new ones. -/
def run_round (accept_failures : Bool) (sid : Nat) (st : ServerState)
    (rnum : Nat) (inp : RoundInput) : Except String ServerState := do
  let (p, _m, db1) ← aggregate_fit accept_failures sid rnum
    inp.fitResults inp.fitFailures st.db inp.now
  let (_l, _em, db2) ← aggregate_evaluate accept_failures sid rnum
    inp.evalResults inp.evalFailures db1
  .ok { st with strategyRound := rnum, params := p.getD st.params, db := db2 }

/-- Modelled from the spec: the Flower server loop (§4.4, "drives rounds
1..num_rounds sequentially"), a third-party component not in this
repository.  Runs the rounds in order; an exception escaping a round stops
the loop and propagates (second component of the pair). -/
def run_rounds (af : Bool) (sid : Nat) :
    ServerState → Nat → List RoundInput → ServerState × Option String
  | st, _, [] => (st, none)
  | st, rnum, inp :: rest =>
    match run_round af sid st rnum inp with
    | .ok st' => run_rounds af sid st' (rnum + 1) rest
    | .error e => (st, some e)

/-- Persisting a session status change (`self.training_session.status = ...;
self.training_session.save()`). -/
def setStatus (st : ServerState) (s : String) : ServerState :=
  { st with session := { st.session with status := s } }

/-- The method `FederatedLearningServer.start` (server.py lines 95-141):
sets the session status to `running`, runs the Flower server over all
rounds, then sets `completed`; an exception marks the session `failed` and
re-raises. -/
def start (af : Bool) (sid : Nat) (st : ServerState)
    (inputs : List RoundInput) : ServerState × Option String :=
  let st1 := setStatus st "running"
  match run_rounds af sid st1 1 inputs with
  | (st2, none) => (setStatus st2 "completed", none)
  | (st2, some e) => (setStatus st2 "failed", some e)

/-- Concrete demonstration data for the orchestration loop: a pending
2-round session. -/
def demoSession : TrainingSession := ⟨"demo", "pending", 2, 0⟩

/-- Initial orchestration state for the demonstration run. -/
def demoState : ServerState := ⟨demoSession, 0, [0], []⟩

/-- One client's fit response used in the demonstration run. -/
def demoFit : FitRes := ⟨[1], 1, [("loss", 1), ("accuracy", 1)]⟩

/-- One fully successful round of client responses. -/
def demoInput : RoundInput :=
  ⟨[("c1", demoFit)], 0, [("c1", ⟨1, 1, [("accuracy", 1)]⟩)], 0, "t"⟩

/-! ## Lemmas about the aggregator -/

theorem lookupKey_isSome_iff {α : Type} (d : List (String × α)) (k : String) :
    lookupKey d k ≠ none ↔ ∃ p ∈ d, p.1 = k := by
  induction d with
  | nil => simp [lookupKey]
  | cons p rest ih =>
    by_cases h : p.1 = k
    · simp [lookupKey, h]
    · simp only [lookupKey, h, if_false, ih, List.mem_cons]
      constructor
      · rintro ⟨q, hq, hk⟩; exact ⟨q, Or.inr hq, hk⟩
      · rintro ⟨q, hq | hq, hk⟩
        · exact absurd (hq ▸ hk) h
        · exact ⟨q, hq, hk⟩

theorem mem_insertKey (acc : List String) (k k' : String) :
    k ∈ insertKey acc k' ↔ k ∈ acc ∨ k = k' := by
  unfold insertKey
  by_cases h : k' ∈ acc
  · simp only [h, if_true]
    constructor
    · exact Or.inl
    · rintro (hk | rfl)
      · exact hk
      · exact h
  · simp [h, List.mem_append]

theorem mem_foldl_insertKeys (d : List (String × ℚ)) (acc : List String)
    (k : String) :
    k ∈ d.foldl (fun a p => insertKey a p.1) acc ↔
      k ∈ acc ∨ ∃ p ∈ d, p.1 = k := by
  induction d generalizing acc with
  | nil => simp
  | cons p rest ih =>
    simp only [List.foldl_cons, ih, mem_insertKey, List.mem_cons]
    constructor
    · rintro ((hk | hk) | ⟨q, hq, hk⟩)
      · exact Or.inl hk
      · exact Or.inr ⟨p, Or.inl rfl, hk.symm⟩
      · exact Or.inr ⟨q, Or.inr hq, hk⟩
    · rintro (hk | ⟨q, hq | hq, hk⟩)
      · exact Or.inl (Or.inl hk)
      · exact Or.inl (Or.inr (hq ▸ hk.symm))
      · exact Or.inr ⟨q, hq, hk⟩

theorem mem_allKeys (metrics : List (Nat × List (String × ℚ))) (k : String) :
    k ∈ allKeys metrics ↔ ∃ e ∈ metrics, lookupKey e.2 k ≠ none := by
  have main : ∀ (ms : List (Nat × List (String × ℚ))) (acc : List String),
      k ∈ ms.foldl (fun acc e => e.2.foldl (fun a p => insertKey a p.1) acc) acc ↔
        k ∈ acc ∨ ∃ e ∈ ms, ∃ p ∈ e.2, p.1 = k := by
    intro ms
    induction ms with
    | nil => simp
    | cons e rest ih =>
      intro acc
      simp only [List.foldl_cons, ih, mem_foldl_insertKeys, List.mem_cons]
      constructor
      · rintro ((hk | ⟨p, hp, hk⟩) | ⟨f, hf, p, hp, hk⟩)
        · exact Or.inl hk
        · exact Or.inr ⟨e, Or.inl rfl, p, hp, hk⟩
        · exact Or.inr ⟨f, Or.inr hf, p, hp, hk⟩
      · rintro (hk | ⟨f, hf | hf, p, hp, hk⟩)
        · exact Or.inl (Or.inl hk)
        · exact Or.inl (Or.inr ⟨p, hf ▸ hp, hk⟩)
        · exact Or.inr ⟨f, hf, p, hp, hk⟩
  rw [allKeys, main]
  simp only [List.not_mem_nil, false_or]
  constructor
  · rintro ⟨e, he, p, hp, hk⟩
    exact ⟨e, he, (lookupKey_isSome_iff e.2 k).mpr ⟨p, hp, hk⟩⟩
  · rintro ⟨e, he, h⟩
    obtain ⟨p, hp, hk⟩ := (lookupKey_isSome_iff e.2 k).mp h
    exact ⟨e, he, p, hp, hk⟩

theorem lookupKey_map_over_keys (ks : List String) (f : String → ℚ)
    (k : String) :
    lookupKey (ks.map fun x => (x, f x)) k =
      if k ∈ ks then some (f k) else none := by
  induction ks with
  | nil => simp [lookupKey]
  | cons x rest ih =>
    by_cases h : x = k
    · subst h; simp [lookupKey]
    · have h' : ¬ k = x := fun hk => h hk.symm
      simp [lookupKey, h, ih, h']

theorem cast_totalExamples (ms : List (Nat × List (String × ℚ))) :
    ((totalExamples ms : Nat) : ℚ) = (ms.map fun e => ((e.1 : Nat) : ℚ)).sum := by
  induction ms with
  | nil => simp [totalExamples]
  | cons e rest ih =>
    simp only [totalExamples, List.map_cons, List.sum_cons, Nat.cast_add] at *
    rw [ih]

theorem totalExamples_pos (ms : List (Nat × List (String × ℚ)))
    (hne : ms ≠ []) (hpos : ∀ e ∈ ms, 0 < e.1) : 0 < totalExamples ms := by
  cases ms with
  | nil => exact absurd rfl hne
  | cons e rest =>
    have h1 : 0 < e.1 := hpos e (List.mem_cons_self e rest)
    have : totalExamples (e :: rest) = e.1 + (rest.map Prod.fst).sum := by
      simp [totalExamples]
    omega

theorem weightedSum_le_total_mul (ms : List (Nat × List (String × ℚ)))
    (k : String) (hi : ℚ) (hhi : ∀ e ∈ ms, qGetD e.2 k ≤ hi) :
    weightedSum ms k ≤ (totalExamples ms : ℚ) * hi := by
  have step : weightedSum ms k ≤ (ms.map fun e => ((e.1 : Nat) : ℚ) * hi).sum := by
    apply List.sum_le_sum
    intro e he
    exact mul_le_mul_of_nonneg_left (hhi e he) (Nat.cast_nonneg e.1)
  calc weightedSum ms k ≤ (ms.map fun e => ((e.1 : Nat) : ℚ) * hi).sum := step
    _ = (ms.map fun e => ((e.1 : Nat) : ℚ)).sum * hi := List.sum_map_mul_right ms _ hi
    _ = (totalExamples ms : ℚ) * hi := by rw [cast_totalExamples]

theorem total_mul_le_weightedSum (ms : List (Nat × List (String × ℚ)))
    (k : String) (lo : ℚ) (hlo : ∀ e ∈ ms, lo ≤ qGetD e.2 k) :
    (totalExamples ms : ℚ) * lo ≤ weightedSum ms k := by
  have step : (ms.map fun e => ((e.1 : Nat) : ℚ) * lo).sum ≤ weightedSum ms k := by
    apply List.sum_le_sum
    intro e he
    exact mul_le_mul_of_nonneg_left (hlo e he) (Nat.cast_nonneg e.1)
  calc (totalExamples ms : ℚ) * lo
      = (ms.map fun e => ((e.1 : Nat) : ℚ)).sum * lo := by rw [cast_totalExamples]
    _ = (ms.map fun e => ((e.1 : Nat) : ℚ) * lo).sum := (List.sum_map_mul_right ms _ lo).symm
    _ ≤ weightedSum ms k := step

/-! ## Claim C5 -/

/-- C5: `weighted_average` on the empty list returns the empty mapping
without error; on any list whose total sample count is non-zero it returns
a mapping whose key set is exactly the union of the entries' metric keys,
and whose value at each such key is
`sum(sample_count_i * metrics_i.get(key, 0.0)) / sum(sample_count_i)`
(entries missing the key contribute `0.0` to the numerator but their
sample_count still counts in the denominator). -/
theorem weighted_average_spec (ms : List (Nat × List (String × ℚ))) :
    (ms = [] → weighted_average ms = .ok []) ∧
    (totalExamples ms ≠ 0 →
      ∃ m, weighted_average ms = .ok m ∧
        (∀ k, lookupKey m k ≠ none ↔ ∃ e ∈ ms, lookupKey e.2 k ≠ none) ∧
        (∀ k, (∃ e ∈ ms, lookupKey e.2 k ≠ none) →
          lookupKey m k =
            some ((ms.map fun e => ((e.1 : Nat) : ℚ) * qGetD e.2 k).sum /
              (((ms.map Prod.fst).sum : Nat) : ℚ)))) := by
  constructor
  · intro h; subst h; rfl
  · intro htot
    have hne : ms ≠ [] := by
      intro h; subst h; exact htot rfl
    refine ⟨(allKeys ms).map
      (fun k => (k, weightedSum ms k / (totalExamples ms : ℚ))), ?_, ?_, ?_⟩
    · unfold weighted_average
      simp [hne, htot]
    · intro k
      rw [lookupKey_map_over_keys]
      by_cases hk : k ∈ allKeys ms
      · simp only [hk, if_true]
        simpa using (mem_allKeys ms k).mp hk
      · simp only [hk, if_false]
        constructor
        · intro h; exact absurd rfl h
        · intro h; exact absurd ((mem_allKeys ms k).mpr h) hk
    · intro k hk
      have hmem : k ∈ allKeys ms := (mem_allKeys ms k).mpr hk
      rw [lookupKey_map_over_keys]
      simp only [hmem, if_true]
      rfl

/-- Witness for C5 at the spec's own worked example
`[(100, {a: 4/5, b: 1/5}), (50, {a: 9/10})]` (with `b` missing from the
second entry). -/
theorem weighted_average_spec_witness :
    totalExamples [(100, [("a", (4:ℚ)/5), ("b", (1:ℚ)/5)]), (50, [("a", (9:ℚ)/10)])] ≠ 0 ∧
    (∃ m, weighted_average
        [(100, [("a", (4:ℚ)/5), ("b", (1:ℚ)/5)]), (50, [("a", (9:ℚ)/10)])] = .ok m ∧
      (∀ k, lookupKey m k ≠ none ↔
        ∃ e ∈ [(100, [("a", (4:ℚ)/5), ("b", (1:ℚ)/5)]), (50, [("a", (9:ℚ)/10)])],
          lookupKey e.2 k ≠ none) ∧
      (∀ k, (∃ e ∈ [(100, [("a", (4:ℚ)/5), ("b", (1:ℚ)/5)]), (50, [("a", (9:ℚ)/10)])],
          lookupKey e.2 k ≠ none) →
        lookupKey m k =
          some (([(100, [("a", (4:ℚ)/5), ("b", (1:ℚ)/5)]), (50, [("a", (9:ℚ)/10)])].map
              fun e => ((e.1 : Nat) : ℚ) * qGetD e.2 k).sum /
            ((([(100, [("a", (4:ℚ)/5), ("b", (1:ℚ)/5)]), (50, [("a", (9:ℚ)/10)])].map
              Prod.fst).sum : Nat) : ℚ)))) :=
  ⟨by decide,
   (weighted_average_spec
     [(100, [("a", (4:ℚ)/5), ("b", (1:ℚ)/5)]), (50, [("a", (9:ℚ)/10)])]).2 (by decide)⟩

/-! ## Claim C6 -/

/-- C6 counterexample: the claim says every NON-EMPTY entry list whose
sample counts sum to zero makes `weighted_average` fail with a
division-by-zero error.  The non-empty list `[(0, {})]` has total sample
count `0`, yet the key union is empty, so the Python loop performs no
division at all and the call returns `{}` normally — no error is raised. -/
theorem weighted_average_zero_total_counterexample :
    weighted_average [(0, ([] : List (String × ℚ)))] = .ok [] := by
  rfl

/-- C6 as amended: for every list of entries whose sample counts sum to
zero and whose union of metric keys is non-empty (i.e. at least one entry
carries at least one metric), `weighted_average` fails with a
division-by-zero error; when every entry's metrics map is empty the call
instead returns the empty mapping without error. -/
theorem weighted_average_zero_total_amended (ms : List (Nat × List (String × ℚ)))
    (h0 : totalExamples ms = 0) (hk : allKeys ms ≠ []) :
    weighted_average ms = .error "ZeroDivisionError" := by
  have hne : ms ≠ [] := by
    intro h; subst h; exact hk rfl
  unfold weighted_average
  simp [hne, h0, hk]

/-- Witness for the amended C6 at `[(0, {a: 1})]`. -/
theorem weighted_average_zero_total_amended_witness :
    totalExamples [(0, [("a", (1:ℚ))])] = 0 ∧
    allKeys [(0, [("a", (1:ℚ))])] ≠ [] ∧
    weighted_average [(0, [("a", (1:ℚ))])] = .error "ZeroDivisionError" :=
  ⟨by decide, by decide,
   weighted_average_zero_total_amended [(0, [("a", (1:ℚ))])] (by decide) (by decide)⟩

/-! ## Claim C7 -/

/-- C7 counterexample: the claim bounds each result value by the min/max of
the key's values across the entries that DEFINE that key.  For
`[(1, {a: 5}), (1, {})]` only the first entry defines `a`, so the claimed
interval is `[5, 5]`; but the second entry's sample count still enters the
denominator while contributing `0` to the numerator, so the result is
`5/2`, strictly below the claimed lower bound `5`. -/
theorem weighted_average_convex_counterexample :
    weighted_average [(1, [("a", (5:ℚ))]), (1, ([] : List (String × ℚ)))] =
      .ok [("a", (5:ℚ)/2)] ∧ (5:ℚ)/2 < 5 := by
  refine ⟨?_, by norm_num⟩
  unfold weighted_average
  rw [if_neg (by simp), if_neg (by norm_num [totalExamples])]
  norm_num [totalExamples, allKeys, insertKey, weightedSum, qGetD, lookupKey]

/-- C7 as amended: for every non-empty list of entries with every
sample_count > 0 and every key in the key union, the returned value lies
in every closed interval `[lo, hi]` that contains
`metrics_i.get(key, 0.0)` for ALL entries — i.e. it lies between the min
and max of the key's values with missing keys read as `0.0` (equivalently,
the originally claimed bounds hold whenever every entry defines the
key). -/
theorem weighted_average_convex_amended (ms : List (Nat × List (String × ℚ)))
    (k : String) (lo hi : ℚ)
    (hne : ms ≠ []) (hpos : ∀ e ∈ ms, 0 < e.1) (hk : k ∈ allKeys ms)
    (hlo : ∀ e ∈ ms, lo ≤ qGetD e.2 k) (hhi : ∀ e ∈ ms, qGetD e.2 k ≤ hi) :
    ∃ m v, weighted_average ms = .ok m ∧ lookupKey m k = some v ∧
      lo ≤ v ∧ v ≤ hi := by
  have hTnat : 0 < totalExamples ms := totalExamples_pos ms hne hpos
  have htot : totalExamples ms ≠ 0 := by omega
  have hT : (0 : ℚ) < (totalExamples ms : ℚ) := by exact_mod_cast hTnat
  refine ⟨(allKeys ms).map
      (fun k' => (k', weightedSum ms k' / (totalExamples ms : ℚ))),
    weightedSum ms k / (totalExamples ms : ℚ), ?_, ?_, ?_, ?_⟩
  · unfold weighted_average
    simp [hne, htot]
  · rw [lookupKey_map_over_keys]
    simp [hk]
  · rw [le_div_iff₀ hT]
    have := total_mul_le_weightedSum ms k lo hlo
    linarith
  · rw [div_le_iff₀ hT]
    have := weightedSum_le_total_mul ms k hi hhi
    linarith

/-- Witness for the amended C7 at `[(2, {a: 1}), (1, {a: 4})]` with the
interval `[1, 4]`: the weighted average of `a` is `(2*1 + 1*4)/3 = 2`. -/
theorem weighted_average_convex_amended_witness :
    ([(2, [("a", (1:ℚ))]), (1, [("a", (4:ℚ))])] ≠
      ([] : List (Nat × List (String × ℚ)))) ∧
    (∀ e ∈ [(2, [("a", (1:ℚ))]), (1, [("a", (4:ℚ))])], 0 < e.1) ∧
    (∃ m v, weighted_average [(2, [("a", (1:ℚ))]), (1, [("a", (4:ℚ))])] = .ok m ∧
      lookupKey m "a" = some v ∧ (1:ℚ) ≤ v ∧ v ≤ 4) := by
  refine ⟨by simp, by decide, ?_⟩
  apply weighted_average_convex_amended
  · simp
  · decide
  · decide
  · intro e he
    simp only [List.mem_cons, List.not_mem_nil, or_false] at he
    rcases he with rfl | rfl <;> norm_num [qGetD, lookupKey]
  · intro e he
    simp only [List.mem_cons, List.not_mem_nil, or_false] at he
    rcases he with rfl | rfl <;> norm_num [qGetD, lookupKey]

/-! ## Claims C8 and C10 -/

/-- C8: construction fails (raises `ValueError` before any round starts)
whenever `min_fit_clients < 1`, whenever `fraction_fit ∉ (0, 1]`, and
whenever `min_available_clients < max(min_fit_clients, min_evaluate_clients)`;
and nothing is silently clamped: a successful construction keeps every
validated field exactly as passed. -/
theorem config_validation_fails_fast (sa : String) (nr : ℤ)
    (mfc mec mac : ℤ) (ff fe : ℚ) (mn : String) (nc le bs : ℤ) (lr : ℚ)
    (rt : Option ℚ) (af : Bool) :
    (mfc < 1 →
      (mkFLServerConfig sa nr mfc mec mac ff fe mn nc le bs lr rt af).isOk = false) ∧
    (¬(0 < ff ∧ ff ≤ 1) →
      (mkFLServerConfig sa nr mfc mec mac ff fe mn nc le bs lr rt af).isOk = false) ∧
    (mac < max mfc mec →
      (mkFLServerConfig sa nr mfc mec mac ff fe mn nc le bs lr rt af).isOk = false) ∧
    (∀ c, mkFLServerConfig sa nr mfc mec mac ff fe mn nc le bs lr rt af = .ok c →
      c.min_fit_clients = mfc ∧ c.min_evaluate_clients = mec ∧
      c.min_available_clients = mac ∧ c.fraction_fit = ff ∧
      c.fraction_evaluate = fe) := by
  unfold mkFLServerConfig
  refine ⟨?_, ?_, ?_, ?_⟩
  · intro h; rw [if_pos h]; rfl
  · intro h; split_ifs <;> simp_all [Except.isOk, Except.toBool]
  · intro h; split_ifs <;> simp_all [Except.isOk, Except.toBool]
  · intro c hc
    split_ifs at hc
    injection hc with h
    subst h
    exact ⟨rfl, rfl, rfl, rfl, rfl⟩

/-- Witness for C8: `min_fit_clients = 0` fails, `fraction_fit = 3/2`
fails, and `min_available_clients = 1 < max(2, 2)` fails. -/
theorem config_validation_fails_fast_witness :
    ((0:ℤ) < 1 ∧
      (mkFLServerConfig "[::]:8080" 10 0 2 2 1 1 "m" 5 1 32 1 none true).isOk = false) ∧
    (¬(0 < (3:ℚ)/2 ∧ (3:ℚ)/2 ≤ 1) ∧
      (mkFLServerConfig "[::]:8080" 10 2 2 2 ((3:ℚ)/2) 1 "m" 5 1 32 1 none true).isOk = false) ∧
    ((1:ℤ) < max 2 2 ∧
      (mkFLServerConfig "[::]:8080" 10 2 2 1 1 1 "m" 5 1 32 1 none true).isOk = false) :=
  ⟨⟨by norm_num,
    (config_validation_fails_fast "[::]:8080" 10 0 2 2 1 1 "m" 5 1 32 1 none true).1
      (by norm_num)⟩,
   ⟨by norm_num,
    (config_validation_fails_fast "[::]:8080" 10 2 2 2 ((3:ℚ)/2) 1 "m" 5 1 32 1 none true).2.1
      (by norm_num)⟩,
   ⟨by norm_num,
    (config_validation_fails_fast "[::]:8080" 10 2 2 1 1 1 "m" 5 1 32 1 none true).2.2.1
      (by norm_num)⟩⟩

/-- C10: `__post_init__` never looks at `num_rounds` or `round_timeout`:
with every other field at its default, construction succeeds for every
integer `num_rounds` (including 0 and negatives) and every timeout value,
and the resulting config carries them through unvalidated. -/
theorem config_accepts_any_num_rounds (n : ℤ) (t : Option ℚ) :
    mkFLServerConfig "[::]:8080" n 2 2 2 1 1 "mobilenet_v3_small" 5 1 32
        (1/1000) t true =
      .ok ⟨"[::]:8080", n, 2, 2, 2, 1, 1, "mobilenet_v3_small", 5, 1, 32,
        1/1000, t, true⟩ := by
  unfold mkFLServerConfig
  norm_num

/-! ## Ledger lemmas -/

theorem isRoundFor_eq (sid rnum : Nat) (r : TrainingRound) :
    isRoundFor sid rnum r = true ↔
      r.training_session_id = sid ∧ r.round_number = rnum := by
  simp [isRoundFor]

theorem countKey_save (db : List TrainingRound) (sid rnum nc : Nat)
    (agg : List (String × ℚ)) (cm : List JsonVal) (now : String) :
    countKey (save_round_to_db db sid rnum nc agg cm now) sid rnum =
      max 1 (countKey db sid rnum) := by
  induction db with
  | nil =>
    simp [countKey, save_round_to_db, List.filter, isRoundFor]
  | cons r rest ih =>
    by_cases h : isRoundFor sid rnum r
    · have h' : isRoundFor sid rnum
          { r with num_clients := nc, status := "completed",
                   metrics := fitMetricsMap agg cm now } = true := by
        rcases (isRoundFor_eq sid rnum r).mp h with ⟨h1, h2⟩
        exact (isRoundFor_eq sid rnum _).mpr ⟨h1, h2⟩
      simp only [save_round_to_db, h, if_true]
      simp only [countKey, List.filter_cons, h, h', if_true, List.length_cons]
      omega
    · have hb : isRoundFor sid rnum r = false := by
        cases hx : isRoundFor sid rnum r
        · rfl
        · exact absurd hx h
      simp only [save_round_to_db, hb, Bool.false_eq_true, if_false]
      simp only [countKey, List.filter_cons, hb, Bool.false_eq_true, if_false] at *
      exact ih

theorem get_round_save (db : List TrainingRound) (sid rnum nc : Nat)
    (agg : List (String × ℚ)) (cm : List JsonVal) (now : String) :
    get_round (save_round_to_db db sid rnum nc agg cm now) sid rnum =
      some ⟨sid, rnum, nc, "completed", fitMetricsMap agg cm now⟩ := by
  induction db with
  | nil =>
    simp [save_round_to_db, get_round, isRoundFor]
  | cons r rest ih =>
    by_cases h : isRoundFor sid rnum r
    · obtain ⟨a, b, c, d, e⟩ := r
      obtain ⟨h1, h2⟩ := (isRoundFor_eq sid rnum ⟨a, b, c, d, e⟩).mp h
      dsimp at h1 h2
      subst h1
      subst h2
      simp [save_round_to_db, h, get_round, isRoundFor]
    · have hb : isRoundFor sid rnum r = false := by
        cases hx : isRoundFor sid rnum r
        · rfl
        · exact absurd hx h
      simp only [save_round_to_db, hb, Bool.false_eq_true, if_false, get_round]
      exact ih

theorem update_eval_of_get_none (db : List TrainingRound) (sid rnum : Nat)
    (loss : Option ℚ) (ms : List (String × ℚ))
    (h : get_round db sid rnum = none) :
    update_round_evaluation db sid rnum loss ms = db := by
  induction db with
  | nil => rfl
  | cons r rest ih =>
    by_cases hr : isRoundFor sid rnum r
    · simp [get_round, hr] at h
    · have hb : isRoundFor sid rnum r = false := by
        cases hx : isRoundFor sid rnum r
        · rfl
        · exact absurd hx hr
      simp only [get_round, hb, Bool.false_eq_true, if_false] at h
      simp only [update_round_evaluation, hb, Bool.false_eq_true, if_false]
      rw [ih h]

theorem get_round_update_eval (db : List TrainingRound) (sid rnum : Nat)
    (loss : Option ℚ) (ms : List (String × ℚ)) (r : TrainingRound)
    (h : get_round db sid rnum = some r) :
    get_round (update_round_evaluation db sid rnum loss ms) sid rnum =
      some { r with
        metrics := setKey r.metrics "evaluation" (evaluationVal loss ms) } := by
  induction db with
  | nil => simp [get_round] at h
  | cons q rest ih =>
    by_cases hq : isRoundFor sid rnum q
    · simp only [get_round, hq, if_true, Option.some.injEq] at h
      have hq' : isRoundFor sid rnum r = true := by rw [← h]; exact hq
      have h' : isRoundFor sid rnum
          { r with metrics := setKey r.metrics "evaluation" (evaluationVal loss ms) } =
            true := by
        rcases (isRoundFor_eq sid rnum r).mp hq' with ⟨h1, h2⟩
        exact (isRoundFor_eq sid rnum _).mpr ⟨h1, h2⟩
      simp [update_round_evaluation, hq, get_round, h, h', hq']
    · have hb : isRoundFor sid rnum q = false := by
        cases hx : isRoundFor sid rnum q
        · rfl
        · exact absurd hx hq
      simp only [get_round, hb, Bool.false_eq_true, if_false] at h
      simp only [update_round_evaluation, hb, Bool.false_eq_true, if_false, get_round]
      exact ih h

/-! ## Claim C1 -/

/-- C1 counterexample: a round record already carries an `evaluation`
sub-key; a fit upsert for the same `(session_id=1, round_number=1)` key
then assigns `training_round.metrics = {aggregated, clients, timestamp}`
wholesale, so afterwards the record's metrics map no longer contains
`evaluation` — the claim says it must still be present. -/
theorem fit_upsert_evaluation_lost_counterexample :
    (get_round (save_round_to_db
        [⟨1, 1, 2, "completed", [("evaluation", JsonVal.null)]⟩]
        1 1 3 [("loss", (1:ℚ)/2)] [] "t1") 1 1).map
      (fun r => lookupKey r.metrics "evaluation") = some none := by
  rfl

/-- C1 as amended: a fit upsert for a `(session_id, round_number)` key —
whether or not a record already exists — replaces the record's entire
metrics map with exactly the `aggregated`, `clients` and `timestamp`
sub-keys; every other pre-existing sub-key, in particular an `evaluation`
block, is removed rather than preserved. -/
theorem fit_upsert_replaces_metrics (db : List TrainingRound)
    (sid rnum nc : Nat) (agg : List (String × ℚ)) (cm : List JsonVal)
    (now : String) :
    ∃ r, get_round (save_round_to_db db sid rnum nc agg cm now) sid rnum = some r ∧
      r.metrics = fitMetricsMap agg cm now ∧
      ∀ k, k ≠ "aggregated" → k ≠ "clients" → k ≠ "timestamp" →
        lookupKey r.metrics k = none := by
  refine ⟨_, get_round_save db sid rnum nc agg cm now, rfl, ?_⟩
  intro k h1 h2 h3
  simp [fitMetricsMap, lookupKey, Ne.symm h1, Ne.symm h2, Ne.symm h3]

/-- Witness for the amended C1: upsert into an empty table, then look up a
sub-key other than the three written ones. -/
theorem fit_upsert_replaces_metrics_witness :
    ∃ r, get_round (save_round_to_db [] 1 1 2 [] [] "t0") 1 1 = some r ∧
      r.metrics = fitMetricsMap [] [] "t0" ∧
      lookupKey r.metrics "evaluation" = none := by
  obtain ⟨r, h1, h2, h3⟩ := fit_upsert_replaces_metrics [] 1 1 2 [] [] "t0"
  exact ⟨r, h1, h2, h3 "evaluation" (by decide) (by decide) (by decide)⟩

/-! ## Claim C3 -/

/-- C3 counterexample: with no record for `(session=7, round=1)`,
`_update_round_evaluation` catches `DoesNotExist` internally, logs, and
returns normally with the table untouched — whereas the claimed operation
(`attach_evaluation_spec`, the spec's wording) fails with `RoundNotFound`
visible to the caller.  No error escapes the source function. -/
theorem attach_evaluation_missing_round_counterexample :
    update_round_evaluation [] 7 1 none [] = [] ∧
    attach_evaluation_spec [] 7 1 none [] = .error "RoundNotFound" :=
  ⟨rfl, rfl⟩

/-- C3 as amended: when no round record exists for the key, the evaluation
update creates no record and changes nothing — but the `RoundNotFound`
condition is caught and logged inside `_update_round_evaluation`, so the
caller sees a normal return rather than an error; only the spec-worded
`attach_evaluation_spec` surfaces `RoundNotFound`. -/
theorem attach_evaluation_missing_round_amended (db : List TrainingRound)
    (sid rnum : Nat) (loss : Option ℚ) (ms : List (String × ℚ))
    (h : get_round db sid rnum = none) :
    update_round_evaluation db sid rnum loss ms = db ∧
    attach_evaluation_spec db sid rnum loss ms = .error "RoundNotFound" := by
  refine ⟨update_eval_of_get_none db sid rnum loss ms h, ?_⟩
  unfold attach_evaluation_spec
  rw [h]

/-- Witness for the amended C3: a table holding only round 1 of session 1,
updated at round 2. -/
theorem attach_evaluation_missing_round_amended_witness :
    get_round [⟨1, 1, 2, "completed", []⟩] 1 2 = none ∧
    (update_round_evaluation [⟨1, 1, 2, "completed", []⟩] 1 2 none [] =
        [⟨1, 1, 2, "completed", []⟩] ∧
      attach_evaluation_spec [⟨1, 1, 2, "completed", []⟩] 1 2 none [] =
        .error "RoundNotFound") :=
  ⟨rfl, attach_evaluation_missing_round_amended
    [⟨1, 1, 2, "completed", []⟩] 1 2 none [] rfl⟩

/-! ## Claim C9 -/

/-- C9: on a table holding at most one record for the key, performing the
fit upsert twice leaves exactly one record for that key (the second call
updates in place), and an `attach_evaluation` after a fit upsert leaves
the `aggregated` and `clients` sub-keys exactly as the fit upsert wrote
them, adding only the `evaluation` sub-key. -/
theorem round_upsert_idempotent (db : List TrainingRound) (sid rnum : Nat)
    (nc nc' : Nat) (agg agg' : List (String × ℚ)) (cm cm' : List JsonVal)
    (now now' : String) (loss : Option ℚ) (ems : List (String × ℚ))
    (h : countKey db sid rnum ≤ 1) :
    countKey (save_round_to_db (save_round_to_db db sid rnum nc agg cm now)
        sid rnum nc' agg' cm' now') sid rnum = 1 ∧
    (∃ r, get_round (update_round_evaluation
          (save_round_to_db db sid rnum nc agg cm now) sid rnum loss ems)
        sid rnum = some r ∧
      lookupKey r.metrics "aggregated" =
        some (.obj (agg.map fun p => (p.1, .num p.2))) ∧
      lookupKey r.metrics "clients" = some (.arr cm) ∧
      lookupKey r.metrics "evaluation" = some (evaluationVal loss ems)) := by
  constructor
  · rw [countKey_save, countKey_save]
    omega
  · have hg := get_round_save db sid rnum nc agg cm now
    have hu := get_round_update_eval _ sid rnum loss ems _ hg
    refine ⟨_, hu, ?_, ?_, ?_⟩
    · simp [fitMetricsMap, setKey, lookupKey]
    · simp [fitMetricsMap, setKey, lookupKey]
    · simp [fitMetricsMap, setKey, lookupKey]

/-- Witness for C9: empty table, two upserts at `(1, 1)` then an
evaluation update. -/
theorem round_upsert_idempotent_witness :
    countKey [] 1 1 ≤ 1 ∧
    (countKey (save_round_to_db (save_round_to_db [] 1 1 2 [] [] "t1")
        1 1 3 [] [] "t2") 1 1 = 1 ∧
    (∃ r, get_round (update_round_evaluation
          (save_round_to_db [] 1 1 2 [] [] "t1") 1 1 none [])
        1 1 = some r ∧
      lookupKey r.metrics "aggregated" =
        some (.obj (([] : List (String × ℚ)).map fun p => (p.1, .num p.2))) ∧
      lookupKey r.metrics "clients" = some (.arr []) ∧
      lookupKey r.metrics "evaluation" = some (evaluationVal none []))) :=
  ⟨by decide,
   round_upsert_idempotent [] 1 1 2 3 [] [] [] [] "t1" "t2" none [] (by decide)⟩

/-! ## Orchestration lemmas -/

theorem except_bind_ok {ε α β : Type} (a : α) (f : α → Except ε β) :
    (Except.ok a >>= f) = f a := rfl

theorem except_bind_error {ε α β : Type} (e : ε) (f : α → Except ε β) :
    ((Except.error e : Except ε α) >>= f) = Except.error e := rfl

theorem run_round_ok_session (af : Bool) (sid : Nat) (st st' : ServerState)
    (rnum : Nat) (inp : RoundInput)
    (h : run_round af sid st rnum inp = .ok st') :
    st'.session = st.session ∧ st'.strategyRound = rnum := by
  unfold run_round at h
  cases hf : aggregate_fit af sid rnum inp.fitResults inp.fitFailures st.db inp.now with
  | error e =>
    rw [hf, except_bind_error] at h
    exact Except.noConfusion h
  | ok v =>
    obtain ⟨p, m, db1⟩ := v
    rw [hf, except_bind_ok] at h
    dsimp only at h
    cases he : aggregate_evaluate af sid rnum inp.evalResults inp.evalFailures db1 with
    | error e =>
      rw [he, except_bind_error] at h
      exact Except.noConfusion h
    | ok w =>
      obtain ⟨l, em, db2⟩ := w
      rw [he, except_bind_ok] at h
      injection h with h'
      rw [← h']
      exact ⟨rfl, rfl⟩

theorem run_rounds_session_invariant (af : Bool) (sid : Nat)
    (inputs : List RoundInput) :
    ∀ (st : ServerState) (rnum : Nat),
      (run_rounds af sid st rnum inputs).1.session = st.session := by
  induction inputs with
  | nil => intro st rnum; rfl
  | cons inp rest ih =>
    intro st rnum
    cases hr : run_round af sid st rnum inp with
    | ok st' =>
      have hs := (run_round_ok_session af sid st st' rnum inp hr).1
      simp only [run_rounds, hr]
      rw [ih st' (rnum + 1), hs]
    | error e =>
      simp only [run_rounds, hr]

theorem run_rounds_strategyRound_lt (af : Bool) (sid : Nat)
    (inputs : List RoundInput) :
    ∀ (st : ServerState) (rnum : Nat), st.strategyRound < rnum →
      (run_rounds af sid st rnum inputs).1.strategyRound < rnum + inputs.length := by
  induction inputs with
  | nil =>
    intro st rnum h
    simpa [run_rounds] using h
  | cons inp rest ih =>
    intro st rnum h
    cases hr : run_round af sid st rnum inp with
    | ok st' =>
      have hs := (run_round_ok_session af sid st st' rnum inp hr).2
      simp only [run_rounds, hr, List.length_cons]
      have := ih st' (rnum + 1) (by omega)
      omega
    | error e =>
      simp only [run_rounds, hr, List.length_cons]
      omega

/-! ## Claim C2 -/

/-- C2 counterexample: a 2-round session runs to normal completion (both
rounds succeed, the run returns no error and marks the session
`completed`), yet the persisted `current_round` is still `0`, not the `2`
the claim's "incremented and persisted after each normally completed
round" requires: no code path in `FederatedLearningServer.start` or
`DjangoFedAvg` ever writes `TrainingSession.current_round`. -/
theorem current_round_not_persisted_counterexample :
    (start true 1 demoState [demoInput, demoInput]).2 = none ∧
    (start true 1 demoState [demoInput, demoInput]).1.session.status = "completed" ∧
    (start true 1 demoState [demoInput, demoInput]).1.session.current_round = 0 ∧
    (start true 1 demoState [demoInput, demoInput]).1.session.current_round ≠
      (start true 1 demoState [demoInput, demoInput]).1.session.num_rounds := by
  exact ⟨rfl, rfl, rfl, by decide⟩

/-- C2 as amended: the session's persisted `current_round` field is never
modified by the orchestration — it keeps its initial value through the
whole run (so it is trivially monotone and, starting at 0, never exceeds
`num_rounds`); what does track the round is the strategy's IN-MEMORY
`current_round` attribute, which `aggregate_fit` sets to the current round
number, and which therefore never exceeds `num_rounds` when the schedule
has `num_rounds` rounds.  The claimed increment-and-persist of the session
counter does not happen. -/
theorem current_round_amended (af : Bool) (sid : Nat) (st : ServerState)
    (inputs : List RoundInput) (h0 : st.strategyRound = 0)
    (hn : inputs.length = st.session.num_rounds) :
    (start af sid st inputs).1.session.current_round = st.session.current_round ∧
    (start af sid st inputs).1.strategyRound ≤ st.session.num_rounds := by
  have hst : start af sid st inputs =
      match run_rounds af sid (setStatus st "running") 1 inputs with
      | (st2, none) => (setStatus st2 "completed", none)
      | (st2, some e) => (setStatus st2 "failed", some e) := rfl
  cases hr : run_rounds af sid (setStatus st "running") 1 inputs with
  | mk st2 err =>
    have hsess : st2.session = (setStatus st "running").session := by
      have := run_rounds_session_invariant af sid inputs (setStatus st "running") 1
      rw [hr] at this
      exact this
    have hlt : st2.strategyRound < 1 + inputs.length := by
      have := run_rounds_strategyRound_lt af sid inputs (setStatus st "running") 1
        (by simp [setStatus, h0])
      rw [hr] at this
      exact this
    cases err with
    | none =>
      rw [hst, hr]
      constructor
      · show (setStatus st2 "completed").session.current_round = _
        rw [show (setStatus st2 "completed").session.current_round =
            st2.session.current_round from rfl, hsess]
        rfl
      · show (setStatus st2 "completed").strategyRound ≤ _
        rw [show (setStatus st2 "completed").strategyRound =
            st2.strategyRound from rfl]
        omega
    | some e =>
      rw [hst, hr]
      constructor
      · show (setStatus st2 "failed").session.current_round = _
        rw [show (setStatus st2 "failed").session.current_round =
            st2.session.current_round from rfl, hsess]
        rfl
      · show (setStatus st2 "failed").strategyRound ≤ _
        rw [show (setStatus st2 "failed").strategyRound =
            st2.strategyRound from rfl]
        omega

/-- Witness for the amended C2 on the concrete 2-round demonstration run. -/
theorem current_round_amended_witness :
    demoState.strategyRound = 0 ∧
    [demoInput, demoInput].length = demoState.session.num_rounds ∧
    ((start true 1 demoState [demoInput, demoInput]).1.session.current_round =
        demoState.session.current_round ∧
      (start true 1 demoState [demoInput, demoInput]).1.strategyRound ≤
        demoState.session.num_rounds) :=
  ⟨rfl, rfl, current_round_amended true 1 demoState [demoInput, demoInput] rfl rfl⟩

/-! ## Claim C4 -/

/-- C4 counterexample: a round with zero successful fit results:
`aggregate_fit` returns no parameters and — because the ledger write is
guarded by `if aggregated_parameters is not None` — writes NOTHING to the
ledger: starting from an empty table, no record for the round exists
afterwards, let alone one with status `failed` as the claim requires
(`_save_round_to_db` can only ever write status `completed`). -/
theorem empty_round_no_failed_record_counterexample :
    aggregate_fit true 1 1 [] 2 [] "t" = .ok (none, [], []) ∧
    get_round [] 1 1 = none :=
  ⟨rfl, rfl⟩

/-- C4 as amended: when the list of successful fit results is empty,
`aggregate_fit` skips aggregation and returns no new parameters (so the
server keeps the previous global parameters), and the ledger is left
completely untouched: no record for the round is created at all — in
particular the round is NOT recorded with status `failed`. -/
theorem empty_round_amended (af : Bool) (sid rnum failures : Nat)
    (db : List TrainingRound) (now : String) :
    aggregate_fit af sid rnum [] failures db now = .ok (none, [], db) := by
  rfl

end FederatedAI
